import Mathlib

/-!
# Verification of the spacy transformer pipeline core

A shallow embedding, in Lean 4, of the core of the `spacy_transformers`
repository: the transformer pipeline component (`pipeline.py`), the
split/merge transform over batched tensors (`split_trf.py`,
`data_classes.py`), and the HuggingFace serialization shim (`hf_shim.py`).

Tensors are modelled as lists of integers (`List Int`), documents as lists
of token identities, and Python dictionaries as association lists.  Python
exceptions are modelled with `Except String`.  Stateful Python code is
embedded by explicit state passing; where the claim under study is about
aliasing and in-place mutation, a store-based model with explicit array
addresses is used instead of the pure value model.
-/

set_option autoImplicit false

namespace SpacyTrf

/-! ## Data model -/

/-- Modelled from the spec: `TransformerData` (PerDocumentOutput) from the
`data_classes` module, which is not among the provided sources.  One
document's slice of encoder output: wordpiece token strings, the
document-token to wordpiece-token alignment, and a sequence of numeric
arrays (one per requested output layer). -/
structure TransformerData where
  wordpieces : List String
  align : List (List Nat)
  tensors : List (List Int)
  deriving DecidableEq, Repr

/-- Modelled from the spec: `TransformerData.empty()` — the distinguished
empty PerDocumentOutput with zero wordpieces (`data_classes` module, not
among the provided sources). -/
def TransformerData.empty : TransformerData :=
  { wordpieces := [], align := [], tensors := [] }

/-- A spaCy `Doc` as this core sees it: an ordered sequence of tokens, each
carrying a stable integer identity (`token.orth`), plus the side-channel
slot `doc._.trf_data` written by `Transformer.set_annotations`. -/
structure Doc where
  orths : List Int
  trf_data : Option TransformerData
  deriving DecidableEq, Repr

/-! ## Listener node (`pipeline.py`, class `TransformerListener`) -/

/-- `TransformerListener.get_batch_id` (pipeline.py, lines 178-180):
`sum(sum(token.orth for token in doc) for doc in inputs)`. -/
def get_batch_id (inputs : List Doc) : Int :=
  (inputs.map (fun d => d.orths.sum)).sum

/-- The mutable state of a `TransformerListener`: `_batch_id`, `_outputs`
and `_backprop` (pipeline.py, lines 167-176), all `None` initially and
overwritten together by `receive`.  The payload types of the outputs and
of the gradient-acceptor callback are parameters. -/
structure ListenerState (O B : Type) where
  batch_id : Option Int
  outputs : Option O
  backprop : Option B

/-- `TransformerListener.receive` (pipeline.py, lines 182-185): overwrite
the three state fields, no validation. -/
def ListenerState.receive {O B : Type} (_s : ListenerState O B)
    (batch_id : Int) (outputs : O) (backprop : Option B) : ListenerState O B :=
  { batch_id := some batch_id, outputs := some outputs, backprop := backprop }

/-- `TransformerListener.verify_inputs` (pipeline.py, lines 187-195):
raise `ValueError` when `_batch_id is None and _outputs is None`;
otherwise recompute the batch id and raise on mismatch, else return
`True`. -/
def verify_inputs {O B : Type} (s : ListenerState O B) (inputs : List Doc) :
    Except String Bool :=
  if s.batch_id.isNone && s.outputs.isNone then
    Except.error "ValueError"
  else
    let batch_id := get_batch_id inputs
    if some batch_id ≠ s.batch_id then
      Except.error "Mismatched IDs!"
    else
      Except.ok true

/-- The `is_train` branch of the listener's `forward` (pipeline.py,
lines 198-201): `model.verify_inputs(docs)` then return
`(model._outputs, model._backprop)`. -/
def listenerForwardTrain {O B : Type} (s : ListenerState O B) (docs : List Doc) :
    Except String (Option O × Option B) :=
  match verify_inputs s docs with
  | Except.error e => Except.error e
  | Except.ok _ => Except.ok (s.outputs, s.backprop)

/-- The non-training branch of the listener's `forward` (pipeline.py,
lines 202-206): with no documents, return `[TransformerData.empty()]` and
a backward function returning `docs`; otherwise pull `doc._.trf_data` from
each document, with the same backward function. -/
def listenerForwardPredict (docs : List Doc) :
    List (Option TransformerData) × (List TransformerData → List Doc) :=
  if docs.length = 0 then
    ([some TransformerData.empty], fun _ => docs)
  else
    (docs.map (fun d => d.trf_data), fun _ => docs)

/-! ## Orchestrating stage (`pipeline.py`, class `Transformer`)

During `Transformer.update`, each listener's gradient acceptor is invoked
with `d_trf_datas`, a list of per-document gradient `TransformerData`s.
Only the per-document tensor sequences matter to `accumulate_gradient`,
so one listener's contribution is modelled as a value of type
`Contribution`: per document, a list of gradient tensors. -/

/-- One listener's gradient contribution: per document, the list of
gradient tensors (`[d.tensors for d in d_trf_datas]`). -/
abbrev Contribution := List (List (List Int))

/-- The inner loop of `accumulate_gradient` (pipeline.py, lines 124-125):
`for j, d_tensor in enumerate(d_trf_data.tensors): d_tensors[i][j] += d_tensor`.
Accumulator tensors beyond the source's length are kept unchanged; a source
longer than the accumulator would raise `IndexError` in Python and is ruled
out by the shape hypotheses of the theorems below. -/
def accDocTensors : List (List Int) → List (List Int) → List (List Int)
  | ds, [] => ds
  | [], _ :: _ => []
  | d :: ds, s :: ss => d.zipWith (fun a b => a + b) s :: accDocTensors ds ss

/-- The outer loop of `accumulate_gradient` (pipeline.py, lines 118-125),
as a pure value-level model of the accumulator update: for each document
index `i` of the incoming contribution, append its tensor list when the
accumulator has no entry at `i` yet, otherwise add elementwise into the
existing entry. -/
def accContrib : Contribution → Contribution → Contribution
  | [], g => g
  | dts, [] => dts
  | d :: ds, x :: xs => accDocTensors d x :: accContrib ds xs

/-- Running all acceptors of one training step once each, in listener
order, starting from the empty accumulator `d_tensors = []`
(pipeline.py, line 109): the first `K-1` calls are `accumulate_gradient`
and the last is the accumulation step performed inside `backprop`
(line 130). -/
def runAcceptors (contribs : List Contribution) : Contribution :=
  contribs.foldl accContrib []

/-- Which acceptor `Transformer.update` hands to a listener via
`receive`. -/
inductive AcceptorTag where
  | accumulate
  | finalize
  deriving DecidableEq, Repr

/-- The broadcast loop of `Transformer.update` (pipeline.py,
lines 137-140): every listener except the last receives the
`accumulate_gradient` acceptor, the last listener receives the `backprop`
(finalize) acceptor.  On an empty listener list, `self.listeners[-1]`
raises `IndexError`. -/
def updateBroadcast {α : Type} : List α → Except String (List (α × AcceptorTag))
  | [] => Except.error "IndexError: list index out of range"
  | x :: xs =>
      Except.ok
        (((x :: xs).dropLast.map (fun l => (l, AcceptorTag.accumulate))) ++
          [((x :: xs).getLast (List.cons_ne_nil x xs), AcceptorTag.finalize)])

/-- The gradient-relevant outcome of one `Transformer.update` training
step, with each listener identified with the gradient contribution its
acceptor is later invoked with: the acceptor routing produced by the
broadcast loop, and the accumulated `d_tensors` that `backprop` hands to
`trf_full.unsplit_by_doc` (merge) and thence to the encoder backward call
`bp_trf_full` (pipeline.py, lines 127-135). -/
def transformerUpdate (contribs : List Contribution) :
    Except String (List (Contribution × AcceptorTag) × Contribution) :=
  match updateBroadcast contribs with
  | Except.error e => Except.error e
  | Except.ok asg => Except.ok (asg, runAcceptors contribs)

/-- Elementwise sum of one document's tensor lists. -/
def zipAddDoc (a b : List (List Int)) : List (List Int) :=
  a.zipWith (fun t u => t.zipWith (fun x y => x + y) u) b

/-- Elementwise sum of two gradient contributions: per document, per
tensor, per position. -/
def zipAddContrib (a b : Contribution) : Contribution :=
  a.zipWith zipAddDoc b

/-- The elementwise sum of a list of gradient contributions, stated in the
spec's terms: the simple per-document, per-tensor-position sum of all
listeners' contributions. -/
def elemSum : List Contribution → Contribution
  | [] => []
  | c :: cs => cs.foldl zipAddContrib c

/-- The shape of a contribution: per document, the list of tensor
lengths. -/
def gradShape (c : Contribution) : List (List Nat) :=
  c.map (fun d => d.map List.length)

/-! ## `Transformer.pipe` (pipeline.py, lines 64-74) -/

/-- The effective minibatch size used by `Transformer.pipe` (line 65):
`batch_size = max(batch_size, self.cfg["max_batch_size"])`. -/
def pipeBatchSize (batch_size max_batch_size : Nat) : Nat :=
  max batch_size max_batch_size

/-- `spacy.util.minibatch` over a finite stream with a fixed integer batch
size: cut the stream into consecutive chunks of `size` documents, the last
chunk possibly shorter.  A non-positive size yields no batches. -/
def chunkList {α : Type} : Nat → List α → List (List α)
  | _, [] => []
  | 0, _ :: _ => []
  | n + 1, x :: xs => (x :: xs).take (n + 1) :: chunkList (n + 1) ((x :: xs).drop (n + 1))
termination_by _ l => l.length
decreasing_by simp [Nat.lt_succ_iff]

/-- The batching behaviour of `Transformer.pipe` (pipeline.py,
lines 64-74): the stream is cut into minibatches of the effective batch
size and each minibatch is passed to one `predict` call. -/
def pipeBatches (stream : List Doc) (batch_size max_batch_size : Nat) :
    List (List Doc) :=
  chunkList (pipeBatchSize batch_size max_batch_size) stream

/-! ## Store-based model of `accumulate_gradient` (aliasing)

The pure model above treats tensors as values.  The Python code, however,
manipulates references: `d_tensors.append(d_trf_data.tensors)`
(pipeline.py, line 122) stores the caller's tensor list itself in the
accumulator, and `d_tensors[i][j] += d_tensor` (line 125) adds in place
into the numpy array found there.  To reason about which arrays are
mutated, tensor arrays live in an explicit store indexed by addresses, and
a contribution is the per-document list of the addresses of the caller's
gradient arrays. -/

/-- The accumulator state of one `update` call: the array store (address →
current array contents) and `d_tensors`, the per-document lists of
addresses appended on each document's first arrival. -/
structure AccState where
  store : List (List Int)
  dTensors : List (List Nat)
  deriving DecidableEq, Repr

/-- `d_tensors[i][j] += d_tensor` (pipeline.py, line 125): add the array
at address `src` elementwise into the array at address `dst`, in place. -/
def storeAddInto (store : List (List Int)) (dst src : Nat) : List (List Int) :=
  store.set dst ((store.getD dst []).zipWith (fun a b => a + b) (store.getD src []))

/-- The inner loop of `accumulate_gradient` in the store model: add each
source array into the accumulator array aliased at the same tensor
index. -/
def accDocStore (store : List (List Int)) (dstAddrs srcAddrs : List Nat) :
    List (List Int) :=
  (dstAddrs.zip srcAddrs).foldl (fun st p => storeAddInto st p.1 p.2) store

/-- The outer loop of `accumulate_gradient` in the store model: walk the
incoming contribution's documents alongside `d_tensors`; existing entries
are added into in place, and documents past the end of `d_tensors` have
their address lists appended as-is — aliasing the caller's arrays, with no
store write. -/
def accStoreGo : List (List Int) → List (List Nat) → List (List Nat) →
    List (List Int) × List (List Nat)
  | store, dts, [] => (store, dts)
  | store, [], cs => (store, cs)
  | store, d :: dts, c :: cs =>
      let store2 := accDocStore store d c
      let p := accStoreGo store2 dts cs
      (p.1, d :: p.2)

/-- One invocation of `accumulate_gradient` (pipeline.py, lines 113-125)
in the store model. -/
def accContribStore (st : AccState) (contrib : List (List Nat)) : AccState :=
  let p := accStoreGo st.store st.dTensors contrib
  { store := p.1, dTensors := p.2 }

/-! ## Split and merge (`split_trf.py` and the spec's Tensor Batch Model)

`split_trf.forward` returns `trf_full.doc_data` (the split result) and a
backward that calls `trf_full.unsplit_by_doc` (merge).  Both underlying
transforms live in the `data_classes` module, which is not among the
provided sources, so they are modelled from the spec.  A batched tensor is
`List (List Int)`: one row per document, `maxLen` positions per row, each
entry standing for the width-vector at that position (`0` = the zero
vector). -/

/-- Modelled from the spec: **split** (§4.1; `FullTransformerBatch.split_by_doc`
is not among the provided sources).  For each document, slice the batched
tensor's row to the document's wordpiece span: row `i` keeps its first
`lens[i]` positions, padding positions are ignored. -/
def splitGrad (lens : List Nat) (g : List (List Int)) : List (List Int) :=
  (lens.zip g).map (fun p => p.2.take p.1)

/-- Modelled from the spec: **merge** (§4.1; `FullTransformerBatch.unsplit_by_doc`
is not among the provided sources).  Scatter each document's slice back
into its row of the padded batch tensor, zero-filling the padding
positions up to `maxLen`. -/
def mergeGrad (maxLen : Nat) (slices : List (List Int)) : List (List Int) :=
  slices.map (fun s => s ++ List.replicate (maxLen - s.length) 0)

/-! ## Serialization shim (`layers/hf_shim.py`) -/

/-- A top-level value of the self-describing msgpack map encoding, at the
depth this model inspects: a key/value document with opaque scalar values,
a map from filenames to raw bytes, or a byte string. -/
inductive Val where
  | vmap : List (String × String) → Val
  | vfiles : List (String × List Nat) → Val
  | vbytes : List Nat → Val
  deriving DecidableEq, Repr

/-- The live HuggingFace transformer as the shim sees it: its
configuration (`config.to_dict()`, values opaque) and its weight state
(`torch.save(state_dict)`, kept as an opaque byte blob). -/
structure TrfModel where
  config : List (String × String)
  state_bytes : List Nat
  deriving DecidableEq, Repr

/-- The live tokenizer as the shim sees it: the files
`tokenizer.save_pretrained` would write, as filename/bytes pairs. -/
structure Tokenizer where
  files : List (String × List Nat)
  deriving DecidableEq, Repr

/-- `HFObjects` (hf_shim.py, lines 17-23). -/
structure HFObjects where
  transformer : Option TrfModel
  tokenizer : Option Tokenizer
  tokenizer_config : List (String × String)
  transformer_config : List (String × String)
  deriving DecidableEq, Repr

/-- `HFShim` (hf_shim.py): the codec instance, holding `_hfmodel`. -/
structure HFShim where
  hfmodel : HFObjects
  deriving DecidableEq, Repr

/-- The tokenizer-files map captured by `to_bytes` (hf_shim.py,
lines 42-46); the source assumes the tokenizer is present whenever the
transformer is. -/
def tokFilesMap (t : Option Tokenizer) : List (String × List Nat) :=
  (t.map Tokenizer.files).getD []

/-- `HFShim.to_bytes` (hf_shim.py, lines 33-58): when no transformer is
held, `config`, `tok_dict` and `weights_bytes` keep their initial empty
values; otherwise they are filled from the live model; either way the
encoded map has exactly the five literal keys of the `msg` dictionary
(lines 51-57). -/
def to_bytes (shim : HFShim) : List (String × Val) :=
  match shim.hfmodel.transformer with
  | none =>
      [("config", Val.vmap []),
       ("state", Val.vmap []),
       ("tokenizer", Val.vfiles []),
       ("tokenizer_config", Val.vmap shim.hfmodel.tokenizer_config),
       ("transformer_config", Val.vmap shim.hfmodel.transformer_config)]
  | some t =>
      [("config", Val.vmap t.config),
       ("state", Val.vbytes t.state_bytes),
       ("tokenizer", Val.vfiles (tokFilesMap shim.hfmodel.tokenizer)),
       ("tokenizer_config", Val.vmap shim.hfmodel.tokenizer_config),
       ("transformer_config", Val.vmap shim.hfmodel.transformer_config)]

/-- A decoded bundle: the five fields of the msgpack map read by
`from_bytes` (hf_shim.py, lines 61-65 and 81). -/
structure Bundle where
  config : List (String × String)
  state : List Nat
  tokenizer : List (String × List Nat)
  tokenizer_config : List (String × String)
  transformer_config : List (String × String)
  deriving DecidableEq, Repr

/-- `HFShim.from_bytes` (hf_shim.py, lines 60-91): when `config_dict` is
empty (falsy), the whole reconstruction block is skipped and `self` is
returned unchanged; otherwise the transformer and tokenizer are
reconstructed from the bundle's fields (the external
`AutoConfig`/`AutoModel`/`AutoTokenizer`/`torch.load` machinery is
abstracted to carrying the decoded fields into the new `HFObjects`). -/
def from_bytes (shim : HFShim) (b : Bundle) : HFShim :=
  if b.config.isEmpty then
    shim
  else
    { hfmodel :=
        { transformer := some { config := b.config, state_bytes := b.state },
          tokenizer := some { files := b.tokenizer },
          tokenizer_config := b.tokenizer_config,
          transformer_config := b.transformer_config } }

/-! ## Theorems -/

/-- C5: `update` fails with the no-listeners error whenever it is invoked
while the stage's registered listener list is empty (pipeline.py,
line 140: `self.listeners[-1]` raises on an empty list), and the failure
is fatal for that training step: no acceptor assignment and no
accumulation are produced. -/
theorem claim_C5_update_empty_listeners :
    transformerUpdate [] = Except.error "IndexError: list index out of range" := rfl

/-- C7: `consume` with `training = false` and an empty document sequence
returns exactly one empty PerDocumentOutput — a one-element sequence,
never an empty one — together with the backward function that returns the
(empty) input document list unchanged (pipeline.py, lines 203-204). -/
theorem claim_C7_consume_empty_predict :
    listenerForwardPredict [] =
      ([some TransformerData.empty], fun _ => ([] : List Doc)) ∧
    (listenerForwardPredict []).1.length = 1 :=
  ⟨rfl, rfl⟩

/-- C4 counterexample: the batch fingerprint is not order-sensitive.  The
two-document batches `[[1], [2]]` and `[[2], [1]]` present the same token
identities in a different order, yet `get_batch_id` — a plain sum — gives
them the same fingerprint. -/
theorem claim_C4_counterexample :
    get_batch_id
        [{ orths := [1], trf_data := none }, { orths := [2], trf_data := none }] =
      get_batch_id
        [{ orths := [2], trf_data := none }, { orths := [1], trf_data := none }] ∧
    ([{ orths := [1], trf_data := none }, { orths := [2], trf_data := none }] :
        List Doc) ≠
      [{ orths := [2], trf_data := none }, { orths := [1], trf_data := none }] := by
  decide

/-- C4 amended: the batch fingerprint is order-insensitive.  It is the sum
of all token identities of the batch, so any two batches whose token
identities form the same multiset — in particular batches with documents
permuted or tokens reordered — receive the same fingerprint; it can only
detect batches that differ in the total sum of token identities. -/
theorem claim_C4_fingerprint_order_insensitive (a b : List Doc)
    (h : (a.map Doc.orths).flatten.Perm (b.map Doc.orths).flatten) :
    get_batch_id a = get_batch_id b := by
  have ha : get_batch_id a = (a.map Doc.orths).flatten.sum := by
    rw [get_batch_id, List.sum_flatten, List.map_map]; rfl
  have hb : get_batch_id b = (b.map Doc.orths).flatten.sum := by
    rw [get_batch_id, List.sum_flatten, List.map_map]; rfl
  rw [ha, hb, h.sum_eq]

/-- Witness for C4 amended: the permuted concrete batches from the
counterexample do get equal fingerprints. -/
theorem claim_C4_witness :
    get_batch_id
        [{ orths := [1], trf_data := none }, { orths := [2], trf_data := none }] =
      get_batch_id
        [{ orths := [2], trf_data := none }, { orths := [1], trf_data := none }] :=
  claim_C4_fingerprint_order_insensitive _ _ (List.isPerm_iff.mp (by decide))

/-- C8 counterexample: `from_bytes` of a bundle with empty `configuration`
returns `self` unchanged (hf_shim.py, lines 66 and 91), so a codec that
already holds a live model still holds it afterwards — the decoded result
is not, in general, "a codec holding no live model". -/
theorem claim_C8_counterexample :
    (from_bytes
        { hfmodel :=
            { transformer := some { config := [("model_type", "bert")], state_bytes := [7] },
              tokenizer := none, tokenizer_config := [], transformer_config := [] } }
        { config := [], state := [], tokenizer := [],
          tokenizer_config := [], transformer_config := [] }).hfmodel.transformer ≠
      none := by
  decide

/-- C8 amended: `from_bytes` of a bundle whose `configuration` field is
empty skips the whole reconstruction block, never raises, and returns the
codec unchanged — in particular a codec that held no live model (such as a
freshly constructed one) still holds none. -/
theorem claim_C8_empty_config_decode (shim : HFShim) (b : Bundle)
    (h : b.config = []) :
    from_bytes shim b = shim := by
  simp [from_bytes, h]

/-- Witness for C8 amended: decoding an all-empty bundle into a fresh
model-free codec returns it unchanged. -/
theorem claim_C8_witness :
    from_bytes
        { hfmodel :=
            { transformer := none, tokenizer := none,
              tokenizer_config := [], transformer_config := [] } }
        { config := [], state := [], tokenizer := [],
          tokenizer_config := [], transformer_config := [] } =
      { hfmodel :=
          { transformer := none, tokenizer := none,
            tokenizer_config := [], transformer_config := [] } } :=
  claim_C8_empty_config_decode _ _ rfl

/-- C9: every `to_bytes` bundle has exactly the five top-level keys
`config, state, tokenizer, tokenizer_config, transformer_config`
(hf_shim.py, lines 51-57), and when the held transformer is `None` the
configuration, weights and tokenizer-assets entries are all empty
(lines 34-36 keep their initial empty values). -/
theorem claim_C9_to_bytes_keys (shim : HFShim) :
    (to_bytes shim).map Prod.fst =
      ["config", "state", "tokenizer", "tokenizer_config", "transformer_config"] ∧
    (shim.hfmodel.transformer = none →
      (to_bytes shim).lookup "config" = some (Val.vmap []) ∧
      (to_bytes shim).lookup "state" = some (Val.vmap []) ∧
      (to_bytes shim).lookup "tokenizer" = some (Val.vfiles [])) := by
  cases h : shim.hfmodel.transformer with
  | none =>
      refine ⟨by simp [to_bytes, h], fun _ => ?_⟩
      simp [to_bytes, h, List.lookup]
  | some t =>
      refine ⟨by simp [to_bytes, h], fun hn => ?_⟩
      exact absurd hn (by simp)

/-- Witness for C9: a fresh model-free shim encodes to the five keys with
empty config, state and tokenizer entries. -/
theorem claim_C9_witness :
    (to_bytes
        { hfmodel :=
            { transformer := none, tokenizer := none,
              tokenizer_config := [], transformer_config := [] } }).map Prod.fst =
      ["config", "state", "tokenizer", "tokenizer_config", "transformer_config"] ∧
    ((to_bytes
        { hfmodel :=
            { transformer := none, tokenizer := none,
              tokenizer_config := [], transformer_config := [] } }).lookup "config" =
        some (Val.vmap []) ∧
      (to_bytes
        { hfmodel :=
            { transformer := none, tokenizer := none,
              tokenizer_config := [], transformer_config := [] } }).lookup "state" =
        some (Val.vmap []) ∧
      (to_bytes
        { hfmodel :=
            { transformer := none, tokenizer := none,
              tokenizer_config := [], transformer_config := [] } }).lookup "tokenizer" =
        some (Val.vfiles [])) :=
  ⟨(claim_C9_to_bytes_keys _).1, (claim_C9_to_bytes_keys _).2 rfl⟩

/-- C3: during training, the listener's `consume` fails when no outputs
have ever been received (`_batch_id` is `None` — whether or not `_outputs`
is also `None`, since a stored `None` batch id can never equal a
recomputed integer id) or when the fingerprint recomputed from the given
documents differs from the stored one; otherwise it returns exactly the
stored `(_outputs, _backprop)` pair, unchanged (pipeline.py,
lines 187-201). -/
theorem claim_C3_listener_train_check (O B : Type) (s : ListenerState O B)
    (docs : List Doc) :
    (s.batch_id = some (get_batch_id docs) →
      listenerForwardTrain s docs = Except.ok (s.outputs, s.backprop)) ∧
    ((s.batch_id = none ∨ s.batch_id ≠ some (get_batch_id docs)) →
      ∃ e, listenerForwardTrain s docs = Except.error e) := by
  constructor
  · intro h
    simp [listenerForwardTrain, verify_inputs, h]
  · intro h
    cases hb : s.batch_id with
    | none =>
        cases ho : s.outputs with
        | none =>
            exact ⟨"ValueError",
              by simp [listenerForwardTrain, verify_inputs, hb, ho]⟩
        | some o =>
            exact ⟨"Mismatched IDs!",
              by simp [listenerForwardTrain, verify_inputs, hb, ho]⟩
    | some x =>
        have hx : get_batch_id docs ≠ x := by
          rcases h with h | h
          · rw [hb] at h; exact absurd h (by simp)
          · intro he; exact h (by rw [hb, he])
        exact ⟨"Mismatched IDs!",
          by simp [listenerForwardTrain, verify_inputs, hb, hx]⟩

/-- Witness for C3: a listener that last received batch id 3 passes the
check on a document whose token identities sum to 3 and hands back its
stored outputs and acceptor. -/
theorem claim_C3_witness :
    listenerForwardTrain
        ({ batch_id := some 3, outputs := some 0, backprop := none } :
          ListenerState Nat Nat)
        [{ orths := [1, 2], trf_data := none }] =
      Except.ok (some 0, none) :=
  (claim_C3_listener_train_check Nat Nat _ _).1 (by decide)

/-- The chunks produced by `chunkList` concatenate back to the stream. -/
theorem chunkList_flatten {α : Type} (n : Nat) :
    ∀ l : List α, (chunkList (n + 1) l).flatten = l
  | [] => by simp [chunkList]
  | x :: xs => by
      rw [chunkList, List.flatten_cons,
        chunkList_flatten n ((x :: xs).drop (n + 1)), List.take_append_drop]
termination_by l => l.length
decreasing_by simp [Nat.lt_succ_iff]

/-- Every chunk produced by `chunkList` has at most the requested size. -/
theorem chunkList_mem_length_le {α : Type} (n : Nat) :
    ∀ l : List α, ∀ c ∈ chunkList (n + 1) l, c.length ≤ n + 1
  | [], c, hc => by simp [chunkList] at hc
  | x :: xs, c, hc => by
      rw [chunkList] at hc
      rcases List.mem_cons.mp hc with h | h
      · subst h; simp [List.length_take_le]
      · exact chunkList_mem_length_le n ((x :: xs).drop (n + 1)) c h
termination_by l => l.length
decreasing_by simp [Nat.lt_succ_iff]

/-- `chunkList` with a positive size yields no chunks only on the empty
stream. -/
theorem chunkList_eq_nil_iff {α : Type} (n : Nat) (l : List α) :
    chunkList (n + 1) l = [] ↔ l = [] := by
  cases l with
  | nil => simp [chunkList]
  | cons x xs => rw [chunkList]; simp

/-- Every chunk except the last is full: it has exactly the requested
size. -/
theorem chunkList_getD_length {α : Type} (n : Nat) :
    ∀ (l : List α) (i : Nat), i + 1 < (chunkList (n + 1) l).length →
      ((chunkList (n + 1) l).getD i []).length = n + 1
  | [], i, h => by simp [chunkList] at h
  | x :: xs, 0, h => by
      rw [chunkList] at h ⊢
      have hlen : ¬ (x :: xs).length ≤ n + 1 := by
        intro hle
        have hnil : (x :: xs).drop (n + 1) = [] := List.drop_eq_nil_of_le hle
        rw [List.length_cons, hnil] at h
        simp [chunkList] at h
      simp only [List.getD, List.get?_cons_zero, Option.getD_some, List.length_take]
      omega
  | x :: xs, i + 1, h => by
      rw [chunkList] at h ⊢
      simp only [List.length_cons, Nat.add_lt_add_iff_right] at h
      simpa using chunkList_getD_length n ((x :: xs).drop (n + 1)) i (by omega)
termination_by l => l.length
decreasing_by all_goals simp [Nat.lt_succ_iff]

/-- C10: in `pipe`, the effective minibatch size is
`max(batch_size, max_batch_size)` (pipeline.py, line 65), so
`max_batch_size` is a lower bound on the per-`predict` batch size, never
an upper bound: whenever the requested `batch_size` is below
`max_batch_size`, the stream is cut into minibatches of exactly
`max_batch_size` documents (the final one possibly shorter), which
together exhaust the stream. -/
theorem claim_C10_pipe_lower_bound (B mbs : Nat) (hB : B < mbs) :
    pipeBatchSize B mbs = mbs ∧
    ∀ stream : List Doc,
      (pipeBatches stream B mbs).flatten = stream ∧
      (∀ c ∈ pipeBatches stream B mbs, c.length ≤ mbs) ∧
      (∀ i : Nat, i + 1 < (pipeBatches stream B mbs).length →
        ((pipeBatches stream B mbs).getD i []).length = mbs) := by
  have hmax : pipeBatchSize B mbs = mbs := Nat.max_eq_right (Nat.le_of_lt hB)
  obtain ⟨m, rfl⟩ : ∃ m, mbs = m + 1 := ⟨mbs - 1, by omega⟩
  refine ⟨hmax, fun stream => ?_⟩
  rw [pipeBatches, hmax]
  exact ⟨chunkList_flatten m stream, chunkList_mem_length_le m stream,
    chunkList_getD_length m stream⟩

/-- Witness for C10: requesting batches of 1 with `max_batch_size = 2`
still cuts a three-document stream into chunks of two. -/
theorem claim_C10_witness :
    pipeBatchSize 1 2 = 2 ∧
    (pipeBatches
        [{ orths := [1], trf_data := none }, { orths := [2], trf_data := none },
          { orths := [3], trf_data := none }] 1 2).flatten =
      [{ orths := [1], trf_data := none }, { orths := [2], trf_data := none },
        { orths := [3], trf_data := none }] :=
  ⟨(claim_C10_pipe_lower_bound 1 2 (by decide)).1,
    ((claim_C10_pipe_lower_bound 1 2 (by decide)).2 _).1⟩

/-- `getD` of a zero-filled replicate list is zero at every index. -/
theorem getD_replicate_zero (k m : Nat) :
    (List.replicate k (0 : Int)).getD m 0 = 0 := by
  rw [List.getD_eq_getElem?_getD, List.getElem?_replicate]
  split <;> simp

/-- Pointwise form of the merge-after-split round trip: inside a
document's wordpiece span the entry of the original batched tensor is
recovered, and the padding positions are zero-filled. -/
theorem mergeGrad_splitGrad_getD (maxLen : Nat) :
    ∀ (lens : List Nat) (g : List (List Int)),
      lens.length = g.length →
      (∀ r ∈ g, r.length = maxLen) →
      (∀ i, i < lens.length → lens.getD i 0 ≤ maxLen) →
      ∀ i, i < g.length → ∀ j, j < maxLen →
        ((mergeGrad maxLen (splitGrad lens g)).getD i []).getD j 0 =
          if j < lens.getD i 0 then (g.getD i []).getD j 0 else 0
  | [], [], _, _, _, i, hi, _, _ => absurd hi (by simp)
  | [], r :: rs, hlen, _, _, _, _, _, _ => absurd hlen (by simp)
  | l :: ls, [], hlen, _, _, _, _, _, _ => absurd hlen (by simp)
  | l :: ls, r :: rs, hlen, hrow, hl, 0, hi, j, hj => by
      have hr : r.length = maxLen := hrow r (List.mem_cons_self r rs)
      have hlm : l ≤ maxLen := by
        have := hl 0 (by simp)
        simpa using this
      have htake : (r.take l).length = l := by
        rw [List.length_take, hr]
        omega
      simp only [splitGrad, mergeGrad, List.zip_cons_cons, List.map_cons,
        List.getD_cons_zero]
      by_cases hjl : j < l
      · rw [if_pos hjl, List.getD_append _ _ _ _ (by omega)]
        rw [List.getD_eq_getElem?_getD, List.getElem?_take_of_lt hjl,
          List.getD_eq_getElem?_getD]
      · rw [if_neg hjl, List.getD_append_right _ _ _ _ (by omega), htake,
          getD_replicate_zero]
  | l :: ls, r :: rs, hlen, hrow, hl, i + 1, hi, j, hj => by
      simp only [splitGrad, mergeGrad, List.zip_cons_cons, List.map_cons,
        List.getD_cons_succ]
      exact mergeGrad_splitGrad_getD maxLen ls rs
        (by simpa using hlen)
        (fun r hr => hrow r (List.mem_cons_of_mem _ hr))
        (fun k hk => by simpa using hl (k + 1) (by simpa using hk))
        i (by simpa using hi) j hj

/-- C2: split and merge are exact inverses with respect to gradient-shaped
tensors.  For a batched gradient `g` of shape `documents × maxLen` (one row
per document of the batch's `model_tensors`, entries standing for the
width-vectors), with `lens` the per-document wordpiece span lengths,
`merge(split(g))` has the shape of `g` and agrees with `g` at every
position inside a document's span, while the padding positions — ignored
by split — are zero-filled by merge. -/
theorem claim_C2_split_merge_roundtrip (lens : List Nat) (maxLen : Nat)
    (g : List (List Int))
    (hlen : lens.length = g.length)
    (hrow : ∀ r ∈ g, r.length = maxLen)
    (hl : ∀ i, i < lens.length → lens.getD i 0 ≤ maxLen) :
    (mergeGrad maxLen (splitGrad lens g)).length = g.length ∧
    ∀ i, i < g.length → ∀ j, j < maxLen →
      ((mergeGrad maxLen (splitGrad lens g)).getD i []).getD j 0 =
        if j < lens.getD i 0 then (g.getD i []).getD j 0 else 0 := by
  refine ⟨?_, mergeGrad_splitGrad_getD maxLen lens g hlen hrow hl⟩
  simp [mergeGrad, splitGrad, hlen]

/-- Witness for C2, following the spec's end-to-end example shapes: two
documents with wordpiece spans of lengths 2 and 1 in a batch padded to 2:
the in-span entry of the second row survives the round trip and its padded
position comes back zero-filled. -/
theorem claim_C2_witness :
    (mergeGrad 2 (splitGrad [2, 1] [[5, 6], [7, 8]])).length = 2 ∧
    ((mergeGrad 2 (splitGrad [2, 1] [[5, 6], [7, 8]])).getD 1 []).getD 0 0 =
      (if 0 < [2, 1].getD 1 0 then ([[5, 6], [7, 8]].getD 1 []).getD 0 0 else 0) ∧
    ((mergeGrad 2 (splitGrad [2, 1] [[5, 6], [7, 8]])).getD 1 []).getD 1 0 =
      (if 1 < [2, 1].getD 1 0 then ([[5, 6], [7, 8]].getD 1 []).getD 1 0 else 0) :=
  ⟨(claim_C2_split_merge_roundtrip [2, 1] 2 [[5, 6], [7, 8]] (by decide)
      (by decide) (by decide)).1,
    (claim_C2_split_merge_roundtrip [2, 1] 2 [[5, 6], [7, 8]] (by decide)
      (by decide) (by decide)).2 1 (by decide) 0 (by decide),
    (claim_C2_split_merge_roundtrip [2, 1] 2 [[5, 6], [7, 8]] (by decide)
      (by decide) (by decide)).2 1 (by decide) 1 (by decide)⟩

/-- An in-place add at address `dst` leaves every other address's array
unchanged. -/
theorem storeAddInto_getD_ne (store : List (List Int)) (dst src a : Nat)
    (h : a ≠ dst) :
    (storeAddInto store dst src).getD a [] = store.getD a [] := by
  rw [storeAddInto, List.getD_eq_getElem?_getD, List.getElem?_set_ne h.symm,
    List.getD_eq_getElem?_getD]

/-- The inner accumulation loop writes only at the destination
addresses. -/
theorem accDocStore_getD_ne :
    ∀ (dstAddrs srcAddrs : List Nat) (store : List (List Int)) (a : Nat),
      a ∉ dstAddrs →
      (accDocStore store dstAddrs srcAddrs).getD a [] = store.getD a []
  | [], _, store, a, _ => by simp [accDocStore]
  | _ :: _, [], store, a, _ => by simp [accDocStore]
  | d :: ds, s :: ss, store, a, ha => by
      have ha' : a ∉ ds := fun h => ha (List.mem_cons_of_mem d h)
      have had : a ≠ d := fun h => ha (h ▸ List.mem_cons_self d ds)
      calc (accDocStore store (d :: ds) (s :: ss)).getD a []
          = (accDocStore (storeAddInto store d s) ds ss).getD a [] := by
            simp [accDocStore, List.zip_cons_cons]
        _ = (storeAddInto store d s).getD a [] :=
            accDocStore_getD_ne ds ss (storeAddInto store d s) a ha'
        _ = store.getD a [] := storeAddInto_getD_ne store d s a had

/-- The outer accumulation loop writes only at addresses already aliased
in `d_tensors`; appended documents alias their contribution's addresses
without any store write. -/
theorem accStoreGo_fst_getD :
    ∀ (dts cs : List (List Nat)) (store : List (List Int)) (a : Nat),
      (∀ d ∈ dts, a ∉ d) →
      (accStoreGo store dts cs).1.getD a [] = store.getD a []
  | [], [], store, a, _ => rfl
  | [], _ :: _, store, a, _ => rfl
  | _ :: _, [], store, a, _ => rfl
  | d :: dts, c :: cs, store, a, h => by
      have hd : a ∉ d := h d (List.mem_cons_self d dts)
      have h' : ∀ x ∈ dts, a ∉ x := fun x hx => h x (List.mem_cons_of_mem d hx)
      calc (accStoreGo store (d :: dts) (c :: cs)).1.getD a []
          = (accStoreGo (accDocStore store d c) dts cs).1.getD a [] := rfl
        _ = (accDocStore store d c).getD a [] :=
            accStoreGo_fst_getD dts cs (accDocStore store d c) a h'
        _ = store.getD a [] := accDocStore_getD_ne d c store a hd

/-- C6 counterexample: per-listener gradient accumulation during `update`
does mutate a previously received tensor array in place.  With two arrays
in the store (`[1]` at address 0 owned by the first listener's gradient
output, `[2]` at address 1 owned by the second's), the first acceptor call
aliases address 0 into the accumulator without copying, and the second
call adds into it in place: the first listener's array changes from `[1]`
to `[3]`. -/
theorem claim_C6_counterexample :
    (accContribStore { store := [[1], [2]], dTensors := [] } [[0]]).store.getD 0 [] =
      [1] ∧
    (accContribStore
        (accContribStore { store := [[1], [2]], dTensors := [] } [[0]])
        [[1]]).store.getD 0 [] = [3] := by
  decide

/-- C6 amended: `accumulate_gradient` is not mutation-free — it aliases
the tensor arrays of each document's first-arriving gradient contribution
(`d_tensors.append(d_trf_data.tensors)` stores the caller's list itself)
and subsequent acceptor calls add their gradients into those arrays in
place; but every array not aliased into the accumulator — in particular
the tensor arrays of the later contributions themselves, and all
previously constructed forward outputs — is left unchanged by an
acceptor call. -/
theorem claim_C6_accumulate_preserves_unaliased (st : AccState)
    (contrib : List (List Nat)) (a : Nat)
    (h : ∀ d ∈ st.dTensors, a ∉ d) :
    (accContribStore st contrib).store.getD a [] = st.store.getD a [] :=
  accStoreGo_fst_getD st.dTensors contrib st.store a h

/-- Witness for C6 amended: in the counterexample configuration, the
second listener's own array (address 1) is untouched by its accumulate
call. -/
theorem claim_C6_witness :
    (accContribStore { store := [[1], [2]], dTensors := [[0]] } [[1]]).store.getD 1 [] =
      (AccState.store { store := [[1], [2]], dTensors := [[0]] }).getD 1 [] :=
  claim_C6_accumulate_preserves_unaliased _ _ 1 (by decide)

/-- When a document's accumulator entry and the incoming tensors have the
same shape, the in-place accumulation step is the elementwise sum. -/
theorem accDocTensors_eq_zipAddDoc :
    ∀ d x : List (List Int), d.map List.length = x.map List.length →
      accDocTensors d x = zipAddDoc d x
  | [], [], _ => rfl
  | [], _ :: _, h => absurd h (by simp)
  | _ :: _, [], h => absurd h (by simp)
  | t :: ts, s :: ss, h => by
      have h2 : ts.map List.length = ss.map List.length := by
        simpa using congrArg List.tail h
      simp only [accDocTensors, zipAddDoc, List.zipWith_cons_cons]
      rw [accDocTensors_eq_zipAddDoc ts ss h2]
      rfl

/-- When the accumulator and the incoming contribution have the same
shape, one `accumulate_gradient` call is the elementwise sum. -/
theorem accContrib_eq_zipAddContrib :
    ∀ a b : Contribution, gradShape a = gradShape b →
      accContrib a b = zipAddContrib a b
  | [], [], _ => rfl
  | [], _ :: _, h => absurd h (by simp [gradShape])
  | _ :: _, [], h => absurd h (by simp [gradShape])
  | d :: ds, x :: xs, h => by
      have h1 : d.map List.length = x.map List.length := by
        simpa [gradShape] using congrArg List.head? h
      have h2 : gradShape ds = gradShape xs := by
        simpa [gradShape] using congrArg List.tail h
      simp only [accContrib, zipAddContrib, List.zipWith_cons_cons]
      rw [accDocTensors_eq_zipAddDoc d x h1, accContrib_eq_zipAddContrib ds xs h2]
      rfl

/-- Elementwise summation of one document's tensors preserves its
shape. -/
theorem map_length_zipAddDoc :
    ∀ d x : List (List Int), d.map List.length = x.map List.length →
      (zipAddDoc d x).map List.length = d.map List.length
  | [], [], _ => rfl
  | [], _ :: _, h => absurd h (by simp)
  | _ :: _, [], h => absurd h (by simp)
  | t :: ts, s :: ss, h => by
      have h1 : t.length = s.length := by
        simpa using congrArg List.head? h
      have h2 : ts.map List.length = ss.map List.length := by
        simpa using congrArg List.tail h
      simp only [zipAddDoc, List.zipWith_cons_cons, List.map_cons,
        List.length_zipWith, h1, Nat.min_self]
      rw [show ts.zipWith (fun t u => t.zipWith (fun x y => x + y) u) ss = zipAddDoc ts ss from rfl,
        map_length_zipAddDoc ts ss h2]

/-- Elementwise summation of two same-shaped contributions preserves the
shape. -/
theorem gradShape_zipAddContrib :
    ∀ a b : Contribution, gradShape a = gradShape b →
      gradShape (zipAddContrib a b) = gradShape a
  | [], [], _ => rfl
  | [], _ :: _, h => absurd h (by simp [gradShape])
  | _ :: _, [], h => absurd h (by simp [gradShape])
  | d :: ds, x :: xs, h => by
      have h1 : d.map List.length = x.map List.length := by
        simpa [gradShape] using congrArg List.head? h
      have h2 : gradShape ds = gradShape xs := by
        simpa [gradShape] using congrArg List.tail h
      simp only [zipAddContrib, List.zipWith_cons_cons, gradShape, List.map_cons]
      rw [map_length_zipAddDoc d x h1]
      have := gradShape_zipAddContrib ds xs h2
      simpa [gradShape] using this

/-- Under shape uniformity, folding the source's accumulation step equals
folding the elementwise sum. -/
theorem foldl_accContrib_eq_foldl_zipAddContrib :
    ∀ (cs : List Contribution) (c : Contribution),
      (∀ g ∈ cs, gradShape g = gradShape c) →
      cs.foldl accContrib c = cs.foldl zipAddContrib c
  | [], _, _ => rfl
  | g :: gs, c, h => by
      have hg : gradShape g = gradShape c := h g (List.mem_cons_self g gs)
      have hshape : gradShape (zipAddContrib c g) = gradShape c :=
        gradShape_zipAddContrib c g hg.symm
      have h' : ∀ g' ∈ gs, gradShape g' = gradShape (zipAddContrib c g) :=
        fun g' hg' => (h g' (List.mem_cons_of_mem g hg')).trans hshape.symm
      simp only [List.foldl_cons]
      rw [accContrib_eq_zipAddContrib c g hg.symm,
        foldl_accContrib_eq_foldl_zipAddContrib gs (zipAddContrib c g) h']

/-- Position-wise reading of the elementwise sum of two same-length
tensors; out-of-range positions read the default `0` on both sides. -/
theorem getD_zipWith_add (t s : List Int) (h : t.length = s.length) (p : Nat) :
    (t.zipWith (fun x y => x + y) s).getD p 0 = t.getD p 0 + s.getD p 0 := by
  rw [List.getD_eq_getElem?_getD, List.getD_eq_getElem?_getD,
    List.getD_eq_getElem?_getD, List.getElem?_zipWith]
  by_cases hp : p < t.length
  · rw [List.getElem?_eq_getElem hp, List.getElem?_eq_getElem (h ▸ hp)]
    rfl
  · rw [List.getElem?_eq_none (by omega), List.getElem?_eq_none (by omega)]
    simp

/-- Position-wise reading of the elementwise sum of two same-shaped
per-document tensor lists. -/
theorem getD_zipAddDoc :
    ∀ d x : List (List Int), d.map List.length = x.map List.length →
      ∀ j p : Nat,
        ((zipAddDoc d x).getD j []).getD p 0 =
          (d.getD j []).getD p 0 + (x.getD j []).getD p 0
  | [], [], _, j, p => by simp [zipAddDoc]
  | [], _ :: _, h, _, _ => absurd h (by simp)
  | _ :: _, [], h, _, _ => absurd h (by simp)
  | t :: ts, s :: ss, h, 0, p => by
      have h1 : t.length = s.length := by
        simpa using congrArg List.head? h
      simp only [zipAddDoc, List.zipWith_cons_cons, List.getD_cons_zero]
      exact getD_zipWith_add t s h1 p
  | t :: ts, s :: ss, h, j + 1, p => by
      have h2 : ts.map List.length = ss.map List.length := by
        simpa using congrArg List.tail h
      simp only [zipAddDoc, List.zipWith_cons_cons, List.getD_cons_succ]
      exact getD_zipAddDoc ts ss h2 j p

/-- Position-wise reading of the elementwise sum of two same-shaped
contributions. -/
theorem getD_zipAddContrib :
    ∀ a b : Contribution, gradShape a = gradShape b →
      ∀ i j p : Nat,
        (((zipAddContrib a b).getD i []).getD j []).getD p 0 =
          ((a.getD i []).getD j []).getD p 0 + ((b.getD i []).getD j []).getD p 0
  | [], [], _, i, j, p => by simp [zipAddContrib]
  | [], _ :: _, h, _, _, _ => absurd h (by simp [gradShape])
  | _ :: _, [], h, _, _, _ => absurd h (by simp [gradShape])
  | d :: ds, x :: xs, h, 0, j, p => by
      have h1 : d.map List.length = x.map List.length := by
        simpa [gradShape] using congrArg List.head? h
      simp only [zipAddContrib, List.zipWith_cons_cons, List.getD_cons_zero]
      exact getD_zipAddDoc d x h1 j p
  | d :: ds, x :: xs, h, i + 1, j, p => by
      have h2 : gradShape ds = gradShape xs := by
        simpa [gradShape] using congrArg List.tail h
      simp only [zipAddContrib, List.zipWith_cons_cons, List.getD_cons_succ]
      exact getD_zipAddContrib ds xs h2 i j p

/-- Position-wise reading of a fold of elementwise sums over same-shaped
contributions: each position holds the initial value plus the sum of the
folded contributions at that position. -/
theorem getD_foldl_zipAddContrib :
    ∀ (cs : List Contribution) (c : Contribution),
      (∀ g ∈ cs, gradShape g = gradShape c) →
      ∀ i j p : Nat,
        (((cs.foldl zipAddContrib c).getD i []).getD j []).getD p 0 =
          ((c.getD i []).getD j []).getD p 0 +
            (cs.map (fun g => ((g.getD i []).getD j []).getD p 0)).sum
  | [], _, _, i, j, p => by simp
  | g :: gs, c, h, i, j, p => by
      have hg : gradShape g = gradShape c := h g (List.mem_cons_self g gs)
      have hshape : gradShape (zipAddContrib c g) = gradShape c :=
        gradShape_zipAddContrib c g hg.symm
      have h' : ∀ g' ∈ gs, gradShape g' = gradShape (zipAddContrib c g) :=
        fun g' hg' => (h g' (List.mem_cons_of_mem g hg')).trans hshape.symm
      simp only [List.foldl_cons, List.map_cons, List.sum_cons]
      rw [getD_foldl_zipAddContrib gs (zipAddContrib c g) h' i j p,
        getD_zipAddContrib c g hg.symm i j p]
      ring

/-- C1: for `update` on a stage with `K ≥ 1` listeners — each listener
identified with the per-document gradient tensor sequences its acceptor is
invoked with once, all of one shape — the acceptor routing hands the
accumulate acceptor to exactly the first `K-1` listeners and the finalize
acceptor to the last listener only, and the accumulated gradient merged
and passed to the encoder's backward call is the elementwise sum of all
`K` listeners' contributions, for every document, tensor and position. -/
theorem claim_C1_update_routing_and_sum (contribs : List Contribution)
    (hne : contribs ≠ [])
    (hsh : ∀ g ∈ contribs, gradShape g = gradShape (contribs.headD [])) :
    ∃ asg, transformerUpdate contribs = Except.ok (asg, elemSum contribs) ∧
      asg.map Prod.fst = contribs ∧
      asg.map Prod.snd =
        List.replicate (contribs.length - 1) AcceptorTag.accumulate ++
          [AcceptorTag.finalize] ∧
      ∀ i j p : Nat,
        (((elemSum contribs).getD i []).getD j []).getD p 0 =
          (contribs.map (fun g => ((g.getD i []).getD j []).getD p 0)).sum := by
  match contribs, hne with
  | c :: cs, _ =>
    have hsh' : ∀ g ∈ cs, gradShape g = gradShape c := by
      intro g hg
      simpa using hsh g (List.mem_cons_of_mem c hg)
    have hrun : runAcceptors (c :: cs) = elemSum (c :: cs) := by
      show (c :: cs).foldl accContrib [] = cs.foldl zipAddContrib c
      rw [List.foldl_cons]
      have hinit : accContrib [] c = c := by cases c <;> rfl
      rw [hinit]
      exact foldl_accContrib_eq_foldl_zipAddContrib cs c hsh'
    refine ⟨((c :: cs).dropLast.map (fun l => (l, AcceptorTag.accumulate))) ++
      [((c :: cs).getLast (List.cons_ne_nil c cs), AcceptorTag.finalize)],
      ?_, ?_, ?_, ?_⟩
    · show Except.ok _ = _
      rw [hrun]
    · rw [List.map_append, List.map_map]
      simp only [List.map_cons, List.map_nil]
      show (c :: cs).dropLast.map id ++ [(c :: cs).getLast _] = c :: cs
      rw [List.map_id]
      exact List.dropLast_append_getLast (List.cons_ne_nil c cs)
    · rw [List.map_append, List.map_map]
      simp only [List.map_cons, List.map_nil]
      show (c :: cs).dropLast.map (fun _ => AcceptorTag.accumulate) ++
        [AcceptorTag.finalize] = _
      rw [List.map_const', List.length_dropLast]
    · intro i j p
      show (((cs.foldl zipAddContrib c).getD i []).getD j []).getD p 0 = _
      rw [getD_foldl_zipAddContrib cs c hsh' i j p]
      simp

/-- Witness for C1: two listeners over two documents (one two-position
tensor for the first document, one single-position tensor for the
second). -/
theorem claim_C1_witness :
    ∃ asg,
      transformerUpdate [[[[1, 2]], [[3]]], [[[10, 20]], [[30]]]] =
        Except.ok (asg, elemSum [[[[1, 2]], [[3]]], [[[10, 20]], [[30]]]]) ∧
      asg.map Prod.fst = [[[[1, 2]], [[3]]], [[[10, 20]], [[30]]]] ∧
      asg.map Prod.snd =
        List.replicate (([[[[1, 2]], [[3]]], [[[10, 20]], [[30]]]] :
          List Contribution).length - 1) AcceptorTag.accumulate ++
          [AcceptorTag.finalize] ∧
      ∀ i j p : Nat,
        (((elemSum [[[[1, 2]], [[3]]], [[[10, 20]], [[30]]]]).getD i []).getD j
            []).getD p 0 =
          (([[[[1, 2]], [[3]]], [[[10, 20]], [[30]]]] :
            List Contribution).map
              (fun g => ((g.getD i []).getD j []).getD p 0)).sum :=
  claim_C1_update_routing_and_sum _ (by decide) (by decide)

end SpacyTrf
